import Mathlib

/-!
Shallow embedding of the BAAI_heartbench answer-extraction, scoring and
resumable-evaluation engine (src/answer_parser.py and
src/evaluate_benchmark.py), together with proofs about the embedded
operations.  Strings are modelled as lists of characters; each Python regular
expression occurring in the source is embedded as an explicit matcher following
the backtracking search order of the CPython regex engine on that concrete
pattern.
-/

namespace HeartBench

/-- Python whitespace for str.strip and for the regex whitespace class
(ASCII part): space, tab, newline, carriage return, vertical tab, form feed. -/
def isPySpace (c : Char) : Bool :=
  c = ' ' || c = '\t' || c = '\n' || c = '\r' || c = '\x0b' || c = '\x0c'

/-- The regex class [A-Z] (ASCII codes 65 to 90). -/
def isUpperAlpha (c : Char) : Bool := 65 ≤ c.toNat && c.toNat ≤ 90

/-- The regex class [a-z] (ASCII codes 97 to 122). -/
def isLowerAlpha (c : Char) : Bool := 97 ≤ c.toNat && c.toNat ≤ 122

/-- The regex class [0-9] (ASCII codes 48 to 57). -/
def isDigitChar (c : Char) : Bool := 48 ≤ c.toNat && c.toNat ≤ 57

/-- The regex word-character class (ASCII part), used for word boundaries. -/
def isWordChar (c : Char) : Bool :=
  isUpperAlpha c || isLowerAlpha c || isDigitChar c || c = '_'

/-- ASCII case-insensitive character equality, modelling re.IGNORECASE. -/
def ciEq (c d : Char) : Bool :=
  c = d || (isUpperAlpha c && c.toNat + 32 = d.toNat)
    || (isUpperAlpha d && d.toNat + 32 = c.toNat)

/-- Case-insensitive literal match of a pattern at the head of a string. -/
def startsWithCI : List Char → List Char → Bool
  | [], _ => true
  | _ :: _, [] => false
  | p :: ps, c :: cs => ciEq p c && startsWithCI ps cs

/-- Case-sensitive literal match of a pattern at the head of a string. -/
def startsWithLit : List Char → List Char → Bool
  | [], _ => true
  | _ :: _, [] => false
  | p :: ps, c :: cs => p = c && startsWithLit ps cs

/-- Length of the maximal whitespace run at the head of a string. -/
def spaceRun : List Char → Nat
  | [] => 0
  | c :: rest => if isPySpace c then spaceRun rest + 1 else 0

/-- Length of the maximal non-whitespace run at the head of a string. -/
def nonSpaceRun : List Char → Nat
  | [] => 0
  | c :: rest => if isPySpace c then 0 else nonSpaceRun rest + 1

/-- Python str.strip(): drop leading and trailing whitespace. -/
def pyStrip (l : List Char) : List Char :=
  ((l.dropWhile isPySpace).reverse.dropWhile isPySpace).reverse

/-- Python lexicographic order on strings (used by sorted). -/
def strLt : List Char → List Char → Bool
  | [], [] => false
  | [], _ :: _ => true
  | _ :: _, [] => false
  | c :: cs, d :: ds => c < d || (c = d && strLt cs ds)

/-! ### AnswerParser (src/answer_parser.py) -/

/-- The terminator (?:\n|Reason:|$) of the answer pattern; $ under re.MULTILINE
matches at the end of the input or just before any newline. -/
def answerTerm (u : List Char) : Bool :=
  (u.head? = some '\n') || startsWithCI ("reason:".toList) u || u.isEmpty

/-- The character class [A-Z,;\s] under IGNORECASE. -/
def inAnswerClass (c : Char) : Bool :=
  isUpperAlpha c || isLowerAlpha c || c = ',' || c = ';' || isPySpace c

/-- Lazy group [A-Z,;\s]+? followed by the terminator: after each consumed
character the terminator is tried first, extending only while the next
character stays in the class.  acc holds the consumed characters reversed. -/
def answerGroupAux (acc : List Char) : List Char → Option (List Char)
  | [] => if answerTerm [] then some acc.reverse else none
  | c :: rest =>
    if answerTerm (c :: rest) then some acc.reverse
    else if inAnswerClass c then answerGroupAux (c :: acc) rest
    else none

/-- The lazy group starting at u; at least one class character is required
before the terminator is first tried. -/
def answerGroupFrom : List Char → Option (List Char)
  | [] => none
  | c :: rest => if inAnswerClass c then answerGroupAux [c] rest else none

/-- Greedy whitespace with backtracking: drop k whitespace characters for
k from the maximal run length down to 0, first success wins. -/
def answerTryDrop (t : List Char) : Nat → Option (List Char)
  | 0 => answerGroupFrom t
  | k + 1 =>
    match answerGroupFrom (t.drop (k + 1)) with
    | some g => some g
    | none => answerTryDrop t k

/-- The part of the answer pattern after the label: \s* then the lazy group
then the terminator. -/
def answerAtLabel (t : List Char) : Option (List Char) :=
  answerTryDrop t (spaceRun t)

/-- re.search of the pattern at answer_parser.py line 26,
Answer:\s*([A-Z,;\s]+?)(?:\n|Reason:|$) with IGNORECASE and MULTILINE: try
each start position left to right and return group 1 of the first match. -/
def findAnswerGroup : List Char → Option (List Char)
  | [] => none
  | c :: rest =>
    if startsWithCI ("answer:".toList) (c :: rest) then
      match answerAtLabel ((c :: rest).drop 7) with
      | some g => some g
      | none => findAnswerGroup rest
    else findAnswerGroup rest

/-- Lazy (.+?) under DOTALL followed by (?:\n\n|\Z): the terminator is tried
after each consumed character; once one character has been consumed the match
always succeeds because \Z matches at the absolute end. -/
def reasonGroupAux (acc : List Char) : List Char → List Char
  | [] => acc.reverse
  | c :: rest =>
    if startsWithLit ['\n', '\n'] (c :: rest) then acc.reverse
    else reasonGroupAux (c :: acc) rest

/-- The lazy reason group starting at u (at least one character). -/
def reasonGroupFrom : List Char → Option (List Char)
  | [] => none
  | c :: rest => some (reasonGroupAux [c] rest)

/-- Greedy whitespace with backtracking for the reason pattern. -/
def reasonTryDrop (t : List Char) : Nat → Option (List Char)
  | 0 => reasonGroupFrom t
  | k + 1 =>
    match reasonGroupFrom (t.drop (k + 1)) with
    | some g => some g
    | none => reasonTryDrop t k

/-- The part of the reason pattern after the label. -/
def reasonAtLabel (t : List Char) : Option (List Char) :=
  reasonTryDrop t (spaceRun t)

/-- re.search of Reason:\s*(.+?)(?:\n\n|\Z) with IGNORECASE and DOTALL
(answer_parser.py lines 27 and 55). -/
def findReasonGroup : List Char → Option (List Char)
  | [] => none
  | c :: rest =>
    if startsWithCI ("reason:".toList) (c :: rest) then
      match reasonAtLabel ((c :: rest).drop 7) with
      | some g => some g
      | none => findReasonGroup rest
    else findReasonGroup rest

/-- One attempted match of the isolated-letter pattern at answer_parser.py
line 41 (word boundary, one uppercase letter, an optional greedy period,
another word boundary) at the current position; prev is the character just
before the position.  Returns the letter and the number of characters
consumed, the optional period backtracking when the closing boundary fails. -/
def letterTokenAt (prev : Option Char) : List Char → Option (Char × Nat)
  | [] => none
  | c :: rest =>
    if isUpperAlpha c && (match prev with | none => true | some p => !isWordChar p) then
      match rest with
      | '.' :: d :: _ => if isWordChar d then some (c, 2) else some (c, 1)
      | ['.'] => some (c, 1)
      | d :: _ => if isWordChar d then none else some (c, 1)
      | [] => some (c, 1)
    else none

/-- re.findall of the isolated-letter pattern: scan left to right, resuming
after the end of each match.  fuel bounds the number of scan steps; every step
consumes at least one character, so the input length suffices. -/
def findLetterTokens (fuel : Nat) (prev : Option Char) (s : List Char) : List Char :=
  match fuel, s with
  | 0, _ => []
  | _, [] => []
  | f + 1, c :: rest =>
    match letterTokenAt prev (c :: rest) with
    | some (l, n) => l :: findLetterTokens f (((c :: rest).drop (n - 1)).head?) ((c :: rest).drop n)
    | none => findLetterTokens f (some c) rest

/-- Order-preserving deduplication with a seen set
(answer_parser.py lines 44-49). -/
def uniqueAux (seen : List Char) : List Char → List Char
  | [] => []
  | c :: rest => if c ∈ seen then uniqueAux seen rest else c :: uniqueAux (c :: seen) rest

/-- Characters consumed by the optional period, greedy whitespace and greedy
non-whitespace pieces that follow a letter inside the letter-run pattern. -/
def dotSpTail (s : List Char) : Nat :=
  let d := if s.head? = some '.' then 1 else 0
  let s1 := s.drop d
  let sp := spaceRun s1
  d + sp + nonSpaceRun (s1.drop sp)

/-- Greedy iterations of the letter-run pattern: each iteration needs at least
one whitespace character followed directly by an uppercase letter.  Nothing
follows the pattern, so the greedy quantifiers never backtrack.  fuel bounds
the number of iterations. -/
def letterRunIters (fuel : Nat) (s : List Char) : Nat :=
  match fuel with
  | 0 => 0
  | f + 1 =>
    let k := spaceRun s
    if k = 0 then 0
    else
      match s.drop k with
      | c :: rest =>
        if isUpperAlpha c then
          let t := dotSpTail rest
          k + 1 + t + letterRunIters f (rest.drop t)
        else 0
      | [] => 0

/-- Total characters consumed by the letter-run pattern of answer_parser.py
line 61 and evaluate_benchmark.py line 164, counted from just after the
leading uppercase letter. -/
def letterRunTail (s : List Char) : Nat :=
  let t := dotSpTail s
  t + letterRunIters (s.drop t).length (s.drop t)

/-- re.sub of the letter-run pattern with the empty string
(answer_parser.py line 61): delete each leftmost non-overlapping match. -/
def removeLetterRuns (fuel : Nat) (prev : Option Char) (s : List Char) : List Char :=
  match fuel, s with
  | 0, s => s
  | _, [] => []
  | f + 1, c :: rest =>
    if isUpperAlpha c && (match prev with | none => true | some p => !isWordChar p) then
      let n := letterRunTail rest
      removeLetterRuns f (((c :: rest).drop n).head?) (rest.drop n)
    else c :: removeLetterRuns f (some c) rest

/-- re.sub of the label-to-end-of-line pattern with the empty string under
IGNORECASE (answer_parser.py line 62). -/
def removeAnswerLabel (fuel : Nat) : List Char → List Char
  | [] => []
  | c :: rest =>
    match fuel with
    | 0 => c :: rest
    | f + 1 =>
      if startsWithCI ("answer:".toList) (c :: rest) then
        removeAnswerLabel f (((c :: rest).drop 7).dropWhile (fun d => d ≠ '\n'))
      else c :: removeAnswerLabel f rest

/-- ASCII upper-casing of one character (Python str.upper). -/
def upperChar (c : Char) : Char :=
  if isLowerAlpha c then Char.ofNat (c.toNat - 32) else c

/-- The class [A-Z,;] kept by the normalisation at answer_parser.py line 35. -/
def keepAnswerChar (c : Char) : Bool := isUpperAlpha c || c = ',' || c = ';'

/-- Normalisation of the matched answer group (answer_parser.py lines 33-35):
strip, upper-case, delete every character outside the kept class. -/
def normalizeAnswer (g : List Char) : List Char :=
  ((pyStrip g).map upperChar).filter keepAnswerChar

/-- Python str.join with a comma separator over single letters. -/
def joinComma : List Char → List Char
  | [] => []
  | [c] => [c]
  | c :: rest => c :: ',' :: joinComma rest

/-- AnswerParser.parse_answer_with_reason (answer_parser.py lines 12-68). -/
def parse_answer_with_reason (output0 : List Char) : List Char × List Char :=
  let output := pyStrip output0
  match findAnswerGroup output with
  | some g =>
    let answer := normalizeAnswer g
    let reason := match findReasonGroup output with
      | some r => pyStrip r
      | none => []
    (answer, reason)
  | none =>
    let letters := findLetterTokens output.length none output
    if letters.isEmpty then (output, [])
    else
      let answer := joinComma (uniqueAux [] letters)
      let reason := match findReasonGroup output with
        | some r => pyStrip r
        | none =>
          let cleaned := removeLetterRuns output.length none output
          pyStrip (removeAnswerLabel cleaned.length cleaned)
      (answer, reason)

/-! ### AnswerExtractor (src/evaluate_benchmark.py lines 148-226) -/

/-- re.findall of the letter-run pattern (evaluate_benchmark.py line 164),
collecting group 1, the leading letter of each run. -/
def findRunLetters (fuel : Nat) (prev : Option Char) (s : List Char) : List Char :=
  match fuel, s with
  | 0, _ => []
  | _, [] => []
  | f + 1, c :: rest =>
    if isUpperAlpha c && (match prev with | none => true | some p => !isWordChar p) then
      let n := letterRunTail rest
      c :: findRunLetters f (((c :: rest).drop n).head?) (rest.drop n)
    else findRunLetters f (some c) rest

/-- Backtracking of greedy whitespace against the nonempty class group in the
full-answer pattern at evaluate_benchmark.py line 178: the whitespace keeps k
characters, from the maximum down, and the next character must be outside the
class of newline and semicolon.  Returns the k that first succeeds. -/
def fullSplit (s : List Char) : Nat → Option Nat
  | 0 =>
    match s with
    | c :: _ => if c = '\n' || c = ';' then none else some 0
    | [] => none
  | k + 1 =>
    match s.drop (k + 1) with
    | c :: _ => if c = '\n' || c = ';' then fullSplit s k else some (k + 1)
    | [] => fullSplit s k

/-- One match attempt of the full-answer pattern: an uppercase letter, a
period, greedy whitespace, then a nonempty greedy run outside newline and
semicolon.  Returns the letter, group 2 and the total characters consumed. -/
def fullAnswerAt : List Char → Option (Char × List Char × Nat)
  | c :: '.' :: rest =>
    if isUpperAlpha c then
      match fullSplit rest (spaceRun rest) with
      | some k =>
        let g := (rest.drop k).takeWhile (fun d => !(d = '\n' || d = ';'))
        some (c, g, 2 + k + g.length)
      | none => none
    else none
  | _ => none

/-- re.findall of the full-answer pattern: scan left to right, resuming after
each match. -/
def findFullAnswers (fuel : Nat) (s : List Char) : List (Char × List Char) :=
  match fuel, s with
  | 0, _ => []
  | _, [] => []
  | f + 1, c :: rest =>
    match fullAnswerAt (c :: rest) with
    | some (l, g, n) => (l, g) :: findFullAnswers f ((c :: rest).drop n)
    | none => findFullAnswers f rest

/-- AnswerExtractor.extract_answers (evaluate_benchmark.py lines 152-183);
the multiple-choice argument is unused in the source as well. -/
def extract_answers (text : List Char) (_is_multiple_choice : Bool) : List (List Char) :=
  let ms := findRunLetters text.length none text
  if ms.isEmpty then
    (findFullAnswers text.length text).map (fun m => m.1 :: '.' :: ' ' :: pyStrip m.2)
  else
    (uniqueAux [] ms).map (fun c => [c])

/-- Greedy anchored iterations of the explicit ground-truth pattern at
evaluate_benchmark.py line 193: separator, whitespace, uppercase letter,
repeated, with a period required right after the final iteration.  Shorter
iteration counts leave a separator, never a period, as the next character, so
failure of an iteration cannot be repaired by backtracking.  acc holds the
consumed group prefix reversed. -/
def gtExplicitIters (fuel : Nat) (acc : List Char) (s : List Char) : Option (List Char) :=
  match fuel with
  | 0 => none
  | f + 1 =>
    match s with
    | '.' :: _ => some acc.reverse
    | c :: rest =>
      if c = ',' || c = ';' then
        let sp := spaceRun rest
        match rest.drop sp with
        | d :: rest2 =>
          if isUpperAlpha d then
            gtExplicitIters f (d :: ((rest.take sp).reverse ++ c :: acc)) rest2
          else none
        | [] => none
      else none
    | [] => none

/-- Step 1 of AnswerExtractor.parse_ground_truth (lines 190-200): group 1 of
the anchored explicit pattern, when it matches. -/
def gtExplicit : List Char → Option (List Char)
  | [] => none
  | c :: rest =>
    if isUpperAlpha c then gtExplicitIters rest.length [c] rest else none

/-- Step 2: the anchored single-letter-period pattern (lines 203-206). -/
def gtSingle : List Char → Option Char
  | c :: '.' :: _ => if isUpperAlpha c then some c else none
  | _ => none

/-- Iteration states of the one-or-more chain in the separated pattern at
line 209, from the position after the first letter: element i holds the
letters seen after i+1 iterations and the rest of the input there. -/
def gtSepChain (fuel : Nat) (letters : List Char) (s : List Char) :
    List (List Char × List Char) :=
  match fuel with
  | 0 => []
  | f + 1 =>
    let sp := spaceRun s
    match s.drop sp with
    | c :: rest =>
      if c = ',' || c = ';' then
        let sp2 := spaceRun rest
        match rest.drop sp2 with
        | d :: rest2 =>
          if isUpperAlpha d then
            (letters ++ [d], rest2) :: gtSepChain f (letters ++ [d]) rest2
          else []
        | [] => []
      else []
    | [] => []

/-- The terminator of the separated pattern: whitespace, period or end. -/
def gtSepTerm : List Char → Bool
  | [] => true
  | c :: _ => isPySpace c || c = '.'

/-- Step 3: the anchored separated pattern (lines 209-215); the greedy chain
backtracks from the longest iteration count down until the terminator
matches, and at least one iteration is required. -/
def gtSeparated : List Char → Option (List Char)
  | [] => none
  | c :: rest =>
    if isUpperAlpha c then
      ((gtSepChain rest.length [c] rest).reverse.find? (fun st => gtSepTerm st.2)).map
        (fun st => st.1)
    else none

/-- The group tail of the fallback pattern at line 219: the first branch takes
the maximal whitespace run and then needs a period, comma or semicolon (a
shorter run would put a whitespace character where the punctuation must
stand); the second branch succeeds exactly when everything after the
whitespace run is gone, a single trailing newline being whitespace itself.
Returns the characters consumed after the letter. -/
def gtFallbackTermLen (s : List Char) : Option Nat :=
  let sp := spaceRun s
  match s.drop sp with
  | c :: _ => if c = '.' || c = ',' || c = ';' then some (sp + 1) else none
  | [] => some sp

/-- Step 4: re.findall of the fallback pattern (lines 219-222). -/
def gtFallbackScan (fuel : Nat) (prev : Option Char) (s : List Char) : List Char :=
  match fuel, s with
  | 0, _ => []
  | _, [] => []
  | f + 1, c :: rest =>
    if isUpperAlpha c && (match prev with | none => true | some p => !isWordChar p) then
      match gtFallbackTermLen rest with
      | some n => c :: gtFallbackScan f (((c :: rest).drop n).head?) (rest.drop n)
      | none => gtFallbackScan f (some c) rest
    else gtFallbackScan f (some c) rest

/-- Step 5: strip one leading letter-period option marker, keeping the rest
(lines 225-226). -/
def gtCleanFallback : List Char → List Char
  | c :: '.' :: rest =>
    if isUpperAlpha c then rest.drop (spaceRun rest) else c :: '.' :: rest
  | gt => gt

/-- Sorted insertion without duplicates; folded over a character list it
models Python sorted(set(letters)). -/
def insertSorted (c : Char) : List Char → List Char
  | [] => [c]
  | d :: rest =>
    if c < d then c :: d :: rest
    else if c = d then d :: rest
    else d :: insertSorted c rest

/-- Python sorted(set(l)) over characters. -/
def sortedSet (l : List Char) : List Char := l.foldr insertSorted []

/-- Continuation of parse_ground_truth after steps 1 to 3 have failed. -/
def gtAfterSeparated (gt : List Char) : List (List Char) :=
  let letters := gtFallbackScan gt.length none gt
  if letters.isEmpty then [pyStrip (gtCleanFallback gt)]
  else (sortedSet letters).map (fun c => [c])

/-- Continuation of parse_ground_truth after steps 1 and 2 have failed. -/
def gtAfterSingle (gt : List Char) : List (List Char) :=
  match gtSeparated gt with
  | some letters =>
    if letters.isEmpty then gtAfterSeparated gt
    else (sortedSet letters).map (fun c => [c])
  | none => gtAfterSeparated gt

/-- Continuation of parse_ground_truth after step 1 has failed. -/
def gtAfterExplicit (gt : List Char) : List (List Char) :=
  match gtSingle gt with
  | some c => [[c]]
  | none => gtAfterSingle gt

/-- AnswerExtractor.parse_ground_truth (evaluate_benchmark.py lines 186-226):
strip, then try the extraction steps in order of specificity, first match
wins; the letters of a matched group are collected by an unanchored
uppercase-letter findall over the group, then deduplicated and sorted. -/
def parse_ground_truth (gt0 : List Char) : List (List Char) :=
  let gt := pyStrip gt0
  match gtExplicit gt with
  | some grp =>
    let letters := grp.filter isUpperAlpha
    if letters.isEmpty then gtAfterExplicit gt
    else (sortedSet letters).map (fun c => [c])
  | none => gtAfterExplicit gt

/-! ### AnswerEvaluator (src/evaluate_benchmark.py lines 229-281) -/

/-- The first character of a predicted entry as a one-character string, or the
empty string when the entry is empty. -/
def headTok : List Char → List Char
  | [] => []
  | c :: _ => [c]

/-- AnswerEvaluator.evaluate_single_choice (lines 233-243). -/
def evaluate_single_choice (predicted ground_truth : List (List Char)) : Bool × ℚ :=
  if predicted.isEmpty || ground_truth.isEmpty then (false, 0)
  else
    let pred_letters := (predicted.map headTok).toFinset
    let gt_letters := ground_truth.toFinset
    (decide (pred_letters = gt_letters), if pred_letters = gt_letters then 1 else 0)

/-- AnswerEvaluator.evaluate_multiple_choice (lines 246-272): the result is
the correctness flag, the accuracy and the hit metric. -/
def evaluate_multiple_choice (predicted ground_truth : List (List Char)) :
    Bool × ℚ × ℚ :=
  if predicted.isEmpty || ground_truth.isEmpty then (false, 0, 0)
  else
    let pred_set := (predicted.map headTok).toFinset
    let gt_set := ground_truth.toFinset
    if pred_set.card = 0 && gt_set.card = 0 then (true, 1, 1)
    else if pred_set.card = 0 || gt_set.card = 0 then (false, 0, 0)
    else
      (decide (pred_set = gt_set),
       if pred_set = gt_set then 1 else 0,
       if 0 < (pred_set ∩ gt_set).card then 1 else 0)

/-- AnswerEvaluator.evaluate (lines 274-281); the optional hit component is
present exactly on the multiple-choice path. -/
def evaluator_evaluate (predicted ground_truth : List (List Char))
    (is_multiple_choice : Bool) : Bool × ℚ × Option ℚ :=
  if is_multiple_choice then
    match evaluate_multiple_choice predicted ground_truth with
    | (b, a, h) => (b, a, some h)
  else
    match evaluate_single_choice predicted ground_truth with
    | (b, a) => (b, a, none)

/-! ### BenchmarkEvaluator (src/evaluate_benchmark.py lines 284-1020) -/

/-- Question (evaluate_benchmark.py lines 30-42). -/
structure Question where
  qid : List Char
  field : List Char
  images : List (List Char)
  question : List Char
  ground_truth : List Char
  is_multiple_choice : Bool
  question_type : List Char
  sequence_view : List Char
  patient_id : List Char
  original_nii : Option (List Char)
  deriving DecidableEq

/-- The per-question result dictionary persisted into detailed_results.json
(evaluate_benchmark.py lines 699-716, concurrent copy lines 818-834); the hit
entry is present exactly for multiple-choice questions. -/
structure ResultItem where
  qid : List Char
  field : List Char
  patient_id : List Char
  question_type : List Char
  sequence_view : List Char
  original_nii : Option (List Char)
  gt : List Char
  answer : List Char
  reason : List Char
  is_correct : Bool
  accuracy : ℚ
  hit : Option ℚ
  raw_output : List Char
  deriving DecidableEq

/-- Completion of one question from the raw reply, the answer text and the
reason: rule-based evaluation, the empty-answer downgrade, the accuracy
consistency fix and record construction (evaluate_benchmark.py lines 668-716;
the concurrent worker repeats the same code at lines 798-834). -/
def finishQuestion (q : Question) (raw_output answer_text reason : List Char) :
    ResultItem :=
  let predicted_answers := extract_answers answer_text q.is_multiple_choice
  let gt_answers := parse_ground_truth q.ground_truth
  let r0 := evaluator_evaluate predicted_answers gt_answers q.is_multiple_choice
  let downgraded := r0.1 && (answer_text.isEmpty || (pyStrip answer_text).isEmpty)
  let is_correct := if downgraded then false else r0.1
  let acc0 : ℚ := if downgraded then 0 else r0.2.1
  let hit0 : Option ℚ :=
    if downgraded && q.is_multiple_choice then some 0 else r0.2.2
  let accuracy : ℚ :=
    if is_correct ∧ acc0 ≠ 1 then 1
    else if is_correct = false ∧ acc0 ≠ 0 then 0
    else acc0
  { qid := q.qid, field := q.field, patient_id := q.patient_id,
    question_type := q.question_type, sequence_view := q.sequence_view,
    original_nii := q.original_nii, gt := q.ground_truth,
    answer := answer_text, reason := reason, is_correct := is_correct,
    accuracy := accuracy,
    hit := if q.is_multiple_choice then some (hit0.getD 0) else none,
    raw_output := raw_output }

/-- One worker body on the rule-based path: prompt generation, model call,
parsing with raw-output fallback, and completion.  A client answer of none
models a model call that raised; the source then records empty raw output,
answer and reason and still evaluates and persists the record
(evaluate_benchmark.py lines 574-716, concurrent copy lines 742-834).  The
optional judge-model path is not modelled; the claims concern rule-based
runs. -/
def processQuestion (predict : List (List Char) → List Char → Option (List Char))
    (promptGen : Question → List Char) (q : Question) : ResultItem :=
  match predict q.images (promptGen q) with
  | none => finishQuestion q [] [] []
  | some raw_output =>
    let pr := parse_answer_with_reason raw_output
    let answer_text := if pr.1.isEmpty then raw_output else pr.1
    finishQuestion q raw_output answer_text pr.2

/-- BenchmarkEvaluator._save_single_result (lines 341-365) without the file
system: replace the first record holding the same qid, append otherwise; the
source then rewrites the whole list to disk. -/
def save_single_result (r : ResultItem) : List ResultItem → List ResultItem
  | [] => [r]
  | e :: rest => if e.qid = r.qid then r :: rest else e :: save_single_result r rest

/-- One per-dimension aggregate bucket of _update_summary. -/
structure Bucket where
  total : ℕ
  correct : ℕ
  accuracy : ℚ
  hit : ℚ
  deriving DecidableEq

/-- The aggregate of one category value: the per-dimension fold of
_update_summary restricted to that key (evaluate_benchmark.py lines 378-421);
hit is accumulated only over records whose question type is Multiple Choice,
and both averages divide by the key's total.  Keys with no records, which the
source's defaultdict never materialises, are given the zero bucket. -/
def hitContribution (r : ResultItem) : ℚ :=
  if r.question_type = ("Multiple Choice".toList) then r.hit.getD 0 else 0

def mkBucket (sel : List ResultItem) : Bucket :=
  { total := sel.length,
    correct := sel.countP (fun r => r.is_correct),
    accuracy :=
      if sel.length = 0 then 0
      else (sel.countP (fun r => r.is_correct) : ℚ) / sel.length,
    hit :=
      if sel.length = 0 then (sel.map hitContribution).sum
      else (sel.map hitContribution).sum / sel.length }

def dimBucket (proj : ResultItem → List Char) (key : List Char)
    (rs : List ResultItem) : Bucket :=
  mkBucket (rs.filter (fun r => proj r = key))

/-- The summary document written by _update_summary (lines 368-436): overall
counters plus the three per-dimension breakdowns, the latter modelled as
functions from category value to bucket. -/
structure Summary where
  total : ℕ
  correct : ℕ
  accuracy : ℚ
  per_field : List Char → Bucket
  per_sequence_view : List Char → Bucket
  per_question_type : List Char → Bucket

/-- The summary recomputed from scratch over the whole working set, as
_update_summary does after every upsert. -/
def update_summary (rs : List ResultItem) : Summary :=
  { total := rs.length,
    correct := rs.countP (fun r => r.is_correct),
    accuracy :=
      if rs.length = 0 then 0
      else (rs.countP (fun r => r.is_correct) : ℚ) / rs.length,
    per_field := fun k => dimBucket (fun r => r.field) k rs,
    per_sequence_view := fun k => dimBucket (fun r => r.sequence_view) k rs,
    per_question_type := fun k => dimBucket (fun r => r.question_type) k rs }

/-- Evaluation state threaded through the sequential loop: the returned
detailed_results, the incrementally saved all_results store, the
completed-qid set, and a log of the qids for which test_model.predict was
invoked.  The log is instrumentation recording each model call; the source
has no such variable. -/
structure SeqState where
  detailed : List ResultItem
  all : List ResultItem
  completed : Finset (List Char)
  calls : List (List Char)
  deriving DecidableEq

/-- One iteration of the loop of _evaluate_sequential (lines 564-727) with an
output directory set: a completed qid is skipped without calling the model;
otherwise the pipeline runs, the record is appended to detailed_results,
upserted into the store (incremental save followed by the summary rewrite)
and its qid marked completed. -/
def seqStep (predict : List (List Char) → List Char → Option (List Char))
    (promptGen : Question → List Char) (st : SeqState) (q : Question) : SeqState :=
  if q.qid ∈ st.completed then st
  else
    let r := processQuestion predict promptGen q
    { detailed := st.detailed ++ [r],
      all := save_single_result r st.all,
      completed := insert q.qid st.completed,
      calls := st.calls ++ [q.qid] }

/-- BenchmarkEvaluator._evaluate_sequential as a fold of seqStep. -/
def evaluate_sequential (predict : List (List Char) → List Char → Option (List Char))
    (promptGen : Question → List Char) (st : SeqState) (questions : List Question) :
    SeqState :=
  questions.foldl (seqStep predict promptGen) st

/-- A Python dict keyed by qid built from a record list (the comprehension at
evaluate_benchmark.py line 334): first-occurrence key order, a later record
with the same qid overwriting in place. -/
def dictByQid (items : List ResultItem) : List ResultItem :=
  items.foldl (fun acc r => save_single_result r acc) []

/-- The resume block of BenchmarkEvaluator.evaluate (lines 893-900): load the
existing records, key them by qid, and mark every loaded qid completed. -/
def resumeInit (loaded : List ResultItem) : SeqState :=
  { detailed := [], all := dictByQid loaded,
    completed := ((dictByQid loaded).map (fun r => r.qid)).toFinset,
    calls := [] }

/-- A fresh, non-resumed run starts from the empty state. -/
def freshInit : SeqState :=
  { detailed := [], all := [], completed := ∅, calls := [] }

/-- _evaluate_concurrent (lines 729-878) for a run whose qids are distinct:
the pool filters out completed qids up front and every worker runs the same
pipeline as the sequential path; detailed_results collects the records in
completion order, modelled by receiving the questions in an arbitrary
completion order. -/
def evaluate_concurrent (predict : List (List Char) → List Char → Option (List Char))
    (promptGen : Question → List Char) (completed : Finset (List Char))
    (questionsInCompletionOrder : List Question) : List ResultItem :=
  (questionsInCompletionOrder.filter (fun q => q.qid ∉ completed)).map
    (processQuestion predict promptGen)

/-- The overall correct counter of BenchmarkEvaluator.evaluate (lines
968-971): a record counts only when is_correct holds and its answer text is
nonempty after stripping. -/
def overallCorrect (rs : List ResultItem) : ℕ :=
  rs.countP (fun r => r.is_correct && !(pyStrip r.answer).isEmpty)

/-- Modelled from the spec text of claim C7, which normalises the matched
answer as: every character that is not an uppercase letter, comma, or
semicolon removed, then upper-cased.  Stated for comparison with the source's
normalizeAnswer, which upper-cases before filtering. -/
def specNormalize (x : List Char) : List Char :=
  (x.filter keepAnswerChar).map upperChar

/-- Python str.rstrip(): drop trailing whitespace. -/
def dropTrailing (l : List Char) : List Char := (l.reverse.dropWhile isPySpace).reverse

/-- Characters a well-formed answer value is made of: uppercase letters
optionally separated by commas, semicolons and spaces (section 4.1 of the
spec). -/
def answerBodyChar (c : Char) : Prop :=
  isUpperAlpha c = true ∨ c = ',' ∨ c = ';' ∨ c = ' '

instance answerBodyCharDecidable (c : Char) : Decidable (answerBodyChar c) :=
  decidable_of_iff (isUpperAlpha c = true ∨ c = ',' ∨ c = ';' ∨ c = ' ') Iff.rfl

/-- Whether a blank line (two adjacent newlines) occurs in the text. -/
def hasDoubleNewline : List Char → Bool
  | c :: d :: rest => (c = '\n' && d = '\n') || hasDoubleNewline (d :: rest)
  | _ => false

/-- A concrete result record used by witnesses. -/
def sampleItem (qid : List Char) : ResultItem :=
  { qid := qid, field := "f".toList, patient_id := [], question_type := [],
    sequence_view := [], original_nii := none, gt := "A.".toList,
    answer := "A".toList, reason := [], is_correct := true, accuracy := 1,
    hit := none, raw_output := "A".toList }

/-- A concrete question used by witnesses. -/
def sampleQuestion (qid gt : List Char) (m : Bool) : Question :=
  { qid := qid, field := "f".toList, images := [], question := [],
    ground_truth := gt, is_multiple_choice := m, question_type := [],
    sequence_view := [], patient_id := [], original_nii := none }

/-! ### Shared lemmas -/

theorem insertSorted_ne_nil (c : Char) (l : List Char) : insertSorted c l ≠ [] := by
  cases l with
  | nil => simp [insertSorted]
  | cons d rest =>
    simp only [insertSorted]
    split <;> try simp
    split <;> simp

theorem sortedSet_ne_nil (l : List Char) (h : l ≠ []) : sortedSet l ≠ [] := by
  cases l with
  | nil => exact absurd rfl h
  | cons c rest => exact insertSorted_ne_nil c (sortedSet rest)

theorem mem_insertSorted (a c : Char) (l : List Char) :
    a ∈ insertSorted c l ↔ a = c ∨ a ∈ l := by
  induction l with
  | nil => simp [insertSorted]
  | cons d rest ih =>
    simp only [insertSorted]
    split_ifs with h1 h2
    · simp only [List.mem_cons]
    · subst h2
      simp only [List.mem_cons]
      tauto
    · simp only [List.mem_cons, ih]
      tauto

theorem pairwise_insertSorted (c : Char) (l : List Char)
    (h : l.Pairwise (· < ·)) : (insertSorted c l).Pairwise (· < ·) := by
  induction l with
  | nil => simp [insertSorted]
  | cons d rest ih =>
    simp only [insertSorted]
    rcases List.pairwise_cons.mp h with ⟨hd, ht⟩
    split
    · rename_i hlt
      refine List.pairwise_cons.mpr ⟨?_, h⟩
      intro x hx
      rcases List.mem_cons.mp hx with h1 | h2
      · exact h1 ▸ hlt
      · exact lt_trans hlt (hd x h2)
    · split
      · exact h
      · rename_i h1 h2
        have hdc : d < c := by
          rcases lt_trichotomy c d with h3 | h3 | h3
          · exact absurd h3 h1
          · exact absurd h3 h2
          · exact h3
        refine List.pairwise_cons.mpr ⟨?_, ih ht⟩
        intro x hx
        rcases (mem_insertSorted x c rest).mp hx with h3 | h3
        · exact h3 ▸ hdc
        · exact hd x h3

theorem pairwise_sortedSet (l : List Char) : (sortedSet l).Pairwise (· < ·) := by
  induction l with
  | nil => simp [sortedSet]
  | cons c rest ih => exact pairwise_insertSorted c (sortedSet rest) ih

theorem strLt_singleton (c d : Char) : strLt [c] [d] = true ↔ c < d := by
  simp [strLt]

theorem strLt_irrefl (a : List Char) : strLt a a = false := by
  induction a with
  | nil => rfl
  | cons c rest ih => simp [strLt, ih]

/-! ### Claim C3: multiple-choice scoring -/

theorem toFinset_map_headTok_ne_empty (p : List (List Char)) (hp : p ≠ []) :
    (p.map headTok).toFinset ≠ ∅ := by
  cases p with
  | nil => exact absurd rfl hp
  | cons x xs => simp

theorem list_toFinset_ne_empty (g : List (List Char)) (hg : g ≠ []) :
    g.toFinset ≠ ∅ := by
  cases g with
  | nil => exact absurd rfl hg
  | cons x xs => simp

/-- C3.  Multiple-choice scoring: for nonempty token lists, correctness is
exact equality of the leading-letter set with the ground-truth set and hit is
positive exactly when the two sets intersect, independent of correctness; if
either list is empty the verdict is incorrect with accuracy 0 and hit 0; the
two concrete spec examples evaluate as stated. -/
theorem multiple_choice_scoring_cases :
    (∀ p g : List (List Char), p ≠ [] → g ≠ [] →
      evaluate_multiple_choice p g =
        (decide ((p.map headTok).toFinset = g.toFinset),
         if (p.map headTok).toFinset = g.toFinset then 1 else 0,
         if 0 < ((p.map headTok).toFinset ∩ g.toFinset).card then 1 else 0)) ∧
    (∀ p g : List (List Char), p = [] ∨ g = [] →
      evaluate_multiple_choice p g = (false, 0, 0)) ∧
    evaluate_multiple_choice [['A'], ['C']] [['A'], ['B']] = (false, 0, 1) ∧
    evaluate_multiple_choice [] [['A']] = (false, 0, 0) := by
  refine ⟨?_, ?_, by decide, by decide⟩
  · intro p g hp hg
    have hpe : p.isEmpty = false := by
      cases p with
      | nil => exact absurd rfl hp
      | cons x xs => rfl
    have hge : g.isEmpty = false := by
      cases g with
      | nil => exact absurd rfl hg
      | cons x xs => rfl
    have hpc : (p.map headTok).toFinset.card ≠ 0 := by
      simp only [ne_eq, Finset.card_eq_zero]
      exact toFinset_map_headTok_ne_empty p hp
    have hgc : g.toFinset.card ≠ 0 := by
      simp only [ne_eq, Finset.card_eq_zero]
      exact list_toFinset_ne_empty g hg
    simp only [evaluate_multiple_choice]
    simp [hpe, hge, hpc, hgc]
  · intro p g h
    rcases h with h | h <;> subst h <;> simp [evaluate_multiple_choice]

theorem multiple_choice_scoring_cases_witness :
    evaluate_multiple_choice [['A'], ['C']] [['A'], ['B']] =
      (decide (([['A'], ['C']].map headTok).toFinset = [['A'], ['B']].toFinset),
       if ([['A'], ['C']].map headTok).toFinset = [['A'], ['B']].toFinset then 1 else 0,
       if 0 < (([['A'], ['C']].map headTok).toFinset ∩ [['A'], ['B']].toFinset).card
       then 1 else 0) :=
  multiple_choice_scoring_cases.1 [['A'], ['C']] [['A'], ['B']]
    (by decide) (by decide)

/-! ### Claim C4: the both-sets-empty special case is dead code -/

/-- C4 counterexample.  At the only input whose two token sets are both empty,
the pair of empty lists, the scorer returns incorrect with accuracy 0 and
hit 0, not the claimed correct full-hit result. -/
theorem empty_sets_counterexample :
    evaluate_multiple_choice [] [] = (false, 0, 0) ∧
    evaluate_multiple_choice [] [] ≠ (true, 1, 1) := by
  constructor
  · rfl
  · decide

/-- C4 amended.  Whenever both token sets are empty, which forces both input
lists to be empty, the scorer returns incorrect with accuracy 0 and hit 0:
the correct-full-hit branch for two empty sets is unreachable because the
empty-list guard fires first. -/
theorem empty_sets_scored_incorrect (p g : List (List Char))
    (hp : (p.map headTok).toFinset = ∅) (hg : g.toFinset = ∅) :
    evaluate_multiple_choice p g = (false, 0, 0) := by
  have hpn : p = [] := by
    cases p with
    | nil => rfl
    | cons x xs => simp at hp
  have hgn : g = [] := by
    cases g with
    | nil => rfl
    | cons x xs => simp at hg
  subst hpn; subst hgn; rfl

theorem empty_sets_scored_incorrect_witness :
    evaluate_multiple_choice [] [] = (false, 0, 0) :=
  empty_sets_scored_incorrect [] [] (by decide) (by decide)

/-! ### Claim C5: upsert idempotence -/

theorem save_single_result_idem (r : ResultItem) (all : List ResultItem) :
    save_single_result r (save_single_result r all) = save_single_result r all := by
  induction all with
  | nil => simp [save_single_result]
  | cons e rest ih =>
    by_cases h : e.qid = r.qid
    · simp [save_single_result, h]
    · simp [save_single_result, h, ih]

theorem save_single_result_count (r : ResultItem) (all : List ResultItem)
    (h : all.countP (fun e => decide (e.qid = r.qid)) ≤ 1) :
    (save_single_result r all).countP (fun e => decide (e.qid = r.qid)) = 1 := by
  induction all with
  | nil => simp [save_single_result]
  | cons e rest ih =>
    by_cases he : e.qid = r.qid
    · have h' : rest.countP (fun e => decide (e.qid = r.qid)) + 1 ≤ 1 := by
        simpa [List.countP_cons, he] using h
      have hr : rest.countP (fun e => decide (e.qid = r.qid)) = 0 := by omega
      simp [save_single_result, he, List.countP_cons, hr]
    · have h' : rest.countP (fun e => decide (e.qid = r.qid)) ≤ 1 := by
        simpa [List.countP_cons, he] using h
      simp [save_single_result, he, List.countP_cons, ih h']

/-- C5.  Upserting the identical record twice leaves the persisted record list
exactly as after one upsert, hence also the recomputed summary; and on a store
holding at most one record for the qid, the result holds exactly one record
for it, so no duplicate entry appears. -/
theorem upsert_idempotent :
    (∀ (r : ResultItem) (all : List ResultItem),
      save_single_result r (save_single_result r all) = save_single_result r all) ∧
    (∀ (r : ResultItem) (all : List ResultItem),
      update_summary (save_single_result r (save_single_result r all)) =
        update_summary (save_single_result r all)) ∧
    (∀ (r : ResultItem) (all : List ResultItem),
      all.countP (fun e => decide (e.qid = r.qid)) ≤ 1 →
      (save_single_result r all).countP (fun e => decide (e.qid = r.qid)) = 1) :=
  ⟨save_single_result_idem,
   fun r all => congrArg update_summary (save_single_result_idem r all),
   save_single_result_count⟩

theorem upsert_idempotent_witness :
    (save_single_result (sampleItem ("1".toList))
        (save_single_result (sampleItem ("1".toList)) []) =
      save_single_result (sampleItem ("1".toList)) []) ∧
    ((save_single_result (sampleItem ("1".toList)) []).countP
        (fun e => decide (e.qid = (sampleItem ("1".toList)).qid)) = 1) :=
  ⟨upsert_idempotent.1 (sampleItem ("1".toList)) [],
   upsert_idempotent.2.2 (sampleItem ("1".toList)) [] (by decide)⟩

/-! ### Claim C10: the ground-truth parser never returns an empty list -/

theorem gtAfterSeparated_ne_nil (gt : List Char) : gtAfterSeparated gt ≠ [] := by
  simp only [gtAfterSeparated]
  split
  · simp
  · rename_i h
    simp only [ne_eq, List.map_eq_nil_iff]
    exact sortedSet_ne_nil _ (by simpa using h)

theorem gtAfterSingle_ne_nil (gt : List Char) : gtAfterSingle gt ≠ [] := by
  simp only [gtAfterSingle]
  split
  · split
    · exact gtAfterSeparated_ne_nil gt
    · rename_i letters _ h
      simp only [ne_eq, List.map_eq_nil_iff]
      exact sortedSet_ne_nil _ (by simpa using h)
  · exact gtAfterSeparated_ne_nil gt

theorem gtAfterExplicit_ne_nil (gt : List Char) : gtAfterExplicit gt ≠ [] := by
  simp only [gtAfterExplicit]
  split
  · simp
  · exact gtAfterSingle_ne_nil gt

/-- C10.  parse_ground_truth returns a nonempty token list on every input:
when no extraction rule finds option letters, the cleaned text itself is
returned as a single token; consequently the scorer's empty-set guard can
never fire on account of a ground truth parsed through this function. -/
theorem parse_ground_truth_ne_nil (s : List Char) : parse_ground_truth s ≠ [] := by
  simp only [parse_ground_truth]
  split
  · split
    · exact gtAfterExplicit_ne_nil _
    · rename_i grp _ h
      simp only [ne_eq, List.map_eq_nil_iff]
      exact sortedSet_ne_nil _ (by simpa using h)
  · exact gtAfterExplicit_ne_nil _

theorem parse_ground_truth_ne_nil_witness :
    parse_ground_truth ("free text".toList) ≠ [] :=
  parse_ground_truth_ne_nil ("free text".toList)

/-! ### Claim C2: record invariants -/

theorem accuracy_fix (ic : Bool) (a : ℚ) :
    (if ic ∧ a ≠ 1 then (1 : ℚ) else if ic = false ∧ a ≠ 0 then 0 else a) =
      if ic then 1 else 0 := by
  cases ic with
  | true => by_cases h : a = 1 <;> simp [h]
  | false => by_cases h : a = 0 <;> simp [h]

theorem finishQuestion_accuracy (q : Question) (raw a re : List Char) :
    (finishQuestion q raw a re).accuracy =
      if (finishQuestion q raw a re).is_correct then 1 else 0 :=
  accuracy_fix _ _

theorem finishQuestion_empty_answer (q : Question) (raw a re : List Char)
    (h : (pyStrip a).isEmpty = true) :
    (finishQuestion q raw a re).is_correct = false := by
  cases hb : (evaluator_evaluate (extract_answers a q.is_multiple_choice)
      (parse_ground_truth q.ground_truth) q.is_multiple_choice).1 <;>
    simp [finishQuestion, hb, h]

theorem processQuestion_accuracy
    (predict : List (List Char) → List Char → Option (List Char))
    (promptGen : Question → List Char) (q : Question) :
    (processQuestion predict promptGen q).accuracy =
      if (processQuestion predict promptGen q).is_correct then 1 else 0 := by
  unfold processQuestion
  cases predict q.images (promptGen q) with
  | none => exact finishQuestion_accuracy _ _ _ _
  | some raw => exact finishQuestion_accuracy _ _ _ _

/-- C2.  Every record produced by the per-question pipeline, shared by the
sequential and the concurrent paths, satisfies: is_correct holds exactly when
accuracy is 1, fails exactly when accuracy is 0, and a record whose answer
text strips to nothing is never marked correct. -/
theorem result_record_invariant
    (predict : List (List Char) → List Char → Option (List Char))
    (promptGen : Question → List Char) (q : Question) :
    ((processQuestion predict promptGen q).is_correct = true ↔
      (processQuestion predict promptGen q).accuracy = 1) ∧
    ((processQuestion predict promptGen q).is_correct = false ↔
      (processQuestion predict promptGen q).accuracy = 0) ∧
    ((pyStrip (processQuestion predict promptGen q).answer).isEmpty = true →
      (processQuestion predict promptGen q).is_correct = false) := by
  have hacc := processQuestion_accuracy predict promptGen q
  refine ⟨?_, ?_, ?_⟩
  · cases hic : (processQuestion predict promptGen q).is_correct <;>
      rw [hic] at hacc <;> simp at hacc <;> simp [hacc]
  · cases hic : (processQuestion predict promptGen q).is_correct <;>
      rw [hic] at hacc <;> simp at hacc <;> simp [hacc]
  · intro h
    unfold processQuestion at h ⊢
    rcases hp : predict q.images (promptGen q) with _ | raw
    · rw [hp] at h
      exact finishQuestion_empty_answer _ _ _ _ h
    · rw [hp] at h
      exact finishQuestion_empty_answer _ _ _ _ h

theorem result_record_invariant_witness :
    (processQuestion (fun _ _ => none) (fun _ => [])
      (sampleQuestion ("1".toList) ("B. Thinned".toList) false)).is_correct = false :=
  (result_record_invariant (fun _ _ => none) (fun _ => [])
    (sampleQuestion ("1".toList) ("B. Thinned".toList) false)).2.2 (by decide)

/-! ### Claim C6: sequential and concurrent runs agree on aggregates -/

theorem evaluate_sequential_detailed
    (predict : List (List Char) → List Char → Option (List Char))
    (promptGen : Question → List Char) :
    ∀ (qs : List Question) (st : SeqState),
      (∀ q ∈ qs, q.qid ∉ st.completed) →
      (qs.map (fun q => q.qid)).Nodup →
      (evaluate_sequential predict promptGen st qs).detailed =
        st.detailed ++ qs.map (processQuestion predict promptGen) := by
  intro qs
  induction qs with
  | nil =>
    intro st _ _
    simp [evaluate_sequential]
  | cons q rest ih =>
    intro st hmem hnd
    have hq : q.qid ∉ st.completed := hmem q (by simp)
    have hstep : seqStep predict promptGen st q =
        { detailed := st.detailed ++ [processQuestion predict promptGen q],
          all := save_single_result (processQuestion predict promptGen q) st.all,
          completed := insert q.qid st.completed,
          calls := st.calls ++ [q.qid] } := by
      simp [seqStep, hq]
    obtain ⟨hhead, hnd'⟩ :
        (∀ x ∈ rest, ¬x.qid = q.qid) ∧ (rest.map (fun q => q.qid)).Nodup := by
      simpa using hnd
    have hrest : ∀ q' ∈ rest, q'.qid ∉ insert q.qid st.completed := by
      intro q' hq'
      rw [Finset.mem_insert]
      push_neg
      exact ⟨hhead q' hq', hmem q' (List.mem_cons_of_mem q hq')⟩
    calc (evaluate_sequential predict promptGen st (q :: rest)).detailed
        = (evaluate_sequential predict promptGen
            (seqStep predict promptGen st q) rest).detailed := by
          simp [evaluate_sequential]
      _ = (seqStep predict promptGen st q).detailed ++
            rest.map (processQuestion predict promptGen) := by
          rw [ih _ (by rw [hstep]; exact hrest) hnd']
      _ = st.detailed ++
            (q :: rest).map (processQuestion predict promptGen) := by
          rw [hstep]
          simp

theorem evaluate_concurrent_fresh
    (predict : List (List Char) → List Char → Option (List Char))
    (promptGen : Question → List Char) (qs : List Question) :
    evaluate_concurrent predict promptGen ∅ qs =
      qs.map (processQuestion predict promptGen) := by
  simp [evaluate_concurrent]

theorem dimBucket_perm (proj : ResultItem → List Char) (k : List Char)
    (rs1 rs2 : List ResultItem) (h : List.Perm rs1 rs2) :
    dimBucket proj k rs1 = dimBucket proj k rs2 := by
  have hf := h.filter (fun r => decide (proj r = k))
  unfold dimBucket mkBucket
  rw [hf.length_eq, hf.countP_eq, (hf.map hitContribution).sum_eq]

theorem update_summary_perm (rs1 rs2 : List ResultItem) (h : List.Perm rs1 rs2) :
    update_summary rs1 = update_summary rs2 := by
  unfold update_summary
  rw [h.length_eq, h.countP_eq]
  congr 1 <;> funext k <;> exact dimBucket_perm _ k rs1 rs2 h

/-- C6.  A sequential fresh run over the question list and a concurrent fresh
run whose completion order is any permutation of it produce record lists of
the same length with identical overall correct counters and identical
recomputed summaries (overall total, correct, accuracy and the three
per-dimension breakdowns), for any deterministic model client. -/
theorem sequential_concurrent_agree
    (predict : List (List Char) → List Char → Option (List Char))
    (promptGen : Question → List Char) (qs qsOrder : List Question)
    (hperm : List.Perm qsOrder qs)
    (hnodup : (qs.map (fun q => q.qid)).Nodup) :
    ((evaluate_sequential predict promptGen freshInit qs).detailed).length =
      (evaluate_concurrent predict promptGen ∅ qsOrder).length ∧
    overallCorrect ((evaluate_sequential predict promptGen freshInit qs).detailed) =
      overallCorrect (evaluate_concurrent predict promptGen ∅ qsOrder) ∧
    update_summary ((evaluate_sequential predict promptGen freshInit qs).detailed) =
      update_summary (evaluate_concurrent predict promptGen ∅ qsOrder) := by
  have hseq := evaluate_sequential_detailed predict promptGen qs freshInit
    (by intro q _; simp [freshInit]) hnodup
  have hconc := evaluate_concurrent_fresh predict promptGen qsOrder
  have hdet : (evaluate_sequential predict promptGen freshInit qs).detailed =
      qs.map (processQuestion predict promptGen) := by
    rw [hseq]; simp [freshInit]
  have hp : List.Perm (qs.map (processQuestion predict promptGen))
      (qsOrder.map (processQuestion predict promptGen)) :=
    (hperm.map (processQuestion predict promptGen)).symm
  rw [hdet, hconc]
  exact ⟨hp.length_eq, hp.countP_eq _, update_summary_perm _ _ hp⟩

theorem sequential_concurrent_agree_witness :
    ((evaluate_sequential (fun _ _ => some ("Answer: A\nReason: r".toList))
        (fun _ => []) freshInit
        [sampleQuestion ("1".toList) ("A.".toList) false,
         sampleQuestion ("2".toList) ("B.".toList) false]).detailed).length =
      (evaluate_concurrent (fun _ _ => some ("Answer: A\nReason: r".toList))
        (fun _ => []) ∅
        [sampleQuestion ("2".toList) ("B.".toList) false,
         sampleQuestion ("1".toList) ("A.".toList) false]).length ∧
    overallCorrect ((evaluate_sequential (fun _ _ => some ("Answer: A\nReason: r".toList))
        (fun _ => []) freshInit
        [sampleQuestion ("1".toList) ("A.".toList) false,
         sampleQuestion ("2".toList) ("B.".toList) false]).detailed) =
      overallCorrect (evaluate_concurrent (fun _ _ => some ("Answer: A\nReason: r".toList))
        (fun _ => []) ∅
        [sampleQuestion ("2".toList) ("B.".toList) false,
         sampleQuestion ("1".toList) ("A.".toList) false]) ∧
    update_summary ((evaluate_sequential (fun _ _ => some ("Answer: A\nReason: r".toList))
        (fun _ => []) freshInit
        [sampleQuestion ("1".toList) ("A.".toList) false,
         sampleQuestion ("2".toList) ("B.".toList) false]).detailed) =
      update_summary (evaluate_concurrent (fun _ _ => some ("Answer: A\nReason: r".toList))
        (fun _ => []) ∅
        [sampleQuestion ("2".toList) ("B.".toList) false,
         sampleQuestion ("1".toList) ("A.".toList) false]) :=
  sequential_concurrent_agree (fun _ _ => some ("Answer: A\nReason: r".toList))
    (fun _ => [])
    [sampleQuestion ("1".toList) ("A.".toList) false,
     sampleQuestion ("2".toList) ("B.".toList) false]
    [sampleQuestion ("2".toList) ("B.".toList) false,
     sampleQuestion ("1".toList) ("A.".toList) false]
    (by decide) (by decide)

/-! ### Claim C1: resume correctness -/

theorem processQuestion_qid
    (predict : List (List Char) → List Char → Option (List Char))
    (promptGen : Question → List Char) (q : Question) :
    (processQuestion predict promptGen q).qid = q.qid := by
  unfold processQuestion
  cases predict q.images (promptGen q) <;> rfl

/-- C1.  Resuming over a store holding records for qids 1 and 2 while the
question set holds qids 1, 2, 3: the model client is called exactly once, for
qid 3, and the final store is the two old records unchanged followed by the
newly produced record for qid 3, so it covers exactly qids 1, 2, 3. -/
theorem resume_skips_completed
    (predict : List (List Char) → List Char → Option (List Char))
    (promptGen : Question → List Char) (r1 r2 : ResultItem) (q1 q2 q3 : Question)
    (h1 : r1.qid = "1".toList) (h2 : r2.qid = "2".toList)
    (hq1 : q1.qid = "1".toList) (hq2 : q2.qid = "2".toList)
    (hq3 : q3.qid = "3".toList) :
    (evaluate_sequential predict promptGen (resumeInit [r1, r2]) [q1, q2, q3]).calls =
      ["3".toList] ∧
    (evaluate_sequential predict promptGen (resumeInit [r1, r2]) [q1, q2, q3]).all =
      [r1, r2, processQuestion predict promptGen q3] ∧
    ((evaluate_sequential predict promptGen (resumeInit [r1, r2]) [q1, q2, q3]).all).map
        (fun r => r.qid) =
      ["1".toList, "2".toList, "3".toList] := by
  have hne12 : ¬(("1".toList : List Char) = "2".toList) := by decide
  have hne13 : ¬(("1".toList : List Char) = "3".toList) := by decide
  have hne23 : ¬(("2".toList : List Char) = "3".toList) := by decide
  have hne31 : ¬(("3".toList : List Char) = "1".toList) := by decide
  have hne32 : ¬(("3".toList : List Char) = "2".toList) := by decide
  have hd : dictByQid [r1, r2] = [r1, r2] := by
    simp [dictByQid, save_single_result, h1, h2, hne12]
  have hcompl : (resumeInit [r1, r2]).completed =
      (["1".toList, "2".toList] : List (List Char)).toFinset := by
    simp [resumeInit, hd, h1, h2]
  have m1 : q1.qid ∈ (resumeInit [r1, r2]).completed := by
    rw [hcompl, hq1]; simp
  have m2 : q2.qid ∈ (resumeInit [r1, r2]).completed := by
    rw [hcompl, hq2]; simp
  have m3 : q3.qid ∉ (resumeInit [r1, r2]).completed := by
    rw [hcompl, hq3]; simp [hne31, hne32]
  have hall : (resumeInit [r1, r2]).all = [r1, r2] := by simp [resumeInit, hd]
  have hdetailed : (resumeInit [r1, r2]).detailed = [] := rfl
  have hcalls : (resumeInit [r1, r2]).calls = [] := rfl
  have hq3' : (processQuestion predict promptGen q3).qid = "3".toList := by
    rw [processQuestion_qid, hq3]
  have hsave : save_single_result (processQuestion predict promptGen q3) [r1, r2] =
      [r1, r2, processQuestion predict promptGen q3] := by
    simp [save_single_result, h1, h2, hq3', hne13, hne23]
  have hfinal : evaluate_sequential predict promptGen (resumeInit [r1, r2]) [q1, q2, q3] =
      { detailed := [processQuestion predict promptGen q3],
        all := [r1, r2, processQuestion predict promptGen q3],
        completed := insert q3.qid (resumeInit [r1, r2]).completed,
        calls := [q3.qid] } := by
    unfold evaluate_sequential
    simp only [List.foldl_cons, List.foldl_nil]
    rw [show seqStep predict promptGen (resumeInit [r1, r2]) q1 = resumeInit [r1, r2] by
      simp [seqStep, m1]]
    rw [show seqStep predict promptGen (resumeInit [r1, r2]) q2 = resumeInit [r1, r2] by
      simp [seqStep, m2]]
    simp [seqStep, m3, hall, hdetailed, hcalls, hsave]
  rw [hfinal]
  refine ⟨by rw [hq3], rfl, ?_⟩
  simp [h1, h2, hq3']

theorem resume_skips_completed_witness :
    (evaluate_sequential (fun _ _ => some ("Answer: A\nReason: r".toList)) (fun _ => [])
        (resumeInit [sampleItem ("1".toList), sampleItem ("2".toList)])
        [sampleQuestion ("1".toList) ("A.".toList) false,
         sampleQuestion ("2".toList) ("B.".toList) false,
         sampleQuestion ("3".toList) ("A.".toList) false]).calls = ["3".toList] ∧
    (evaluate_sequential (fun _ _ => some ("Answer: A\nReason: r".toList)) (fun _ => [])
        (resumeInit [sampleItem ("1".toList), sampleItem ("2".toList)])
        [sampleQuestion ("1".toList) ("A.".toList) false,
         sampleQuestion ("2".toList) ("B.".toList) false,
         sampleQuestion ("3".toList) ("A.".toList) false]).all =
      [sampleItem ("1".toList), sampleItem ("2".toList),
       processQuestion (fun _ _ => some ("Answer: A\nReason: r".toList)) (fun _ => [])
         (sampleQuestion ("3".toList) ("A.".toList) false)] ∧
    ((evaluate_sequential (fun _ _ => some ("Answer: A\nReason: r".toList)) (fun _ => [])
        (resumeInit [sampleItem ("1".toList), sampleItem ("2".toList)])
        [sampleQuestion ("1".toList) ("A.".toList) false,
         sampleQuestion ("2".toList) ("B.".toList) false,
         sampleQuestion ("3".toList) ("A.".toList) false]).all).map (fun r => r.qid) =
      ["1".toList, "2".toList, "3".toList] :=
  resume_skips_completed (fun _ _ => some ("Answer: A\nReason: r".toList)) (fun _ => [])
    (sampleItem ("1".toList)) (sampleItem ("2".toList))
    (sampleQuestion ("1".toList) ("A.".toList) false)
    (sampleQuestion ("2".toList) ("B.".toList) false)
    (sampleQuestion ("3".toList) ("A.".toList) false)
    rfl rfl rfl rfl rfl

/-! ### Stripping infrastructure -/

theorem upper_not_space (c : Char) (h : isUpperAlpha c = true) : isPySpace c = false := by
  have h1 : 65 ≤ c.toNat ∧ c.toNat ≤ 90 := by simpa [isUpperAlpha] using h
  have hne : ∀ d : Char, d.toNat < 65 → c ≠ d := by
    intro d hd he
    subst he
    omega
  simp [isPySpace, hne ' ' (by decide), hne '\t' (by decide), hne '\n' (by decide),
    hne '\r' (by decide), hne '\x0b' (by decide), hne '\x0c' (by decide)]

theorem pyStrip_cons_of_nonspace (c : Char) (l : List Char) (hc : isPySpace c = false) :
    pyStrip (c :: l) = dropTrailing (c :: l) := by
  simp [pyStrip, dropTrailing, List.dropWhile_cons, hc]

theorem dropTrailing_cons_of_nonspace (c : Char) (l : List Char)
    (hc : isPySpace c = false) : dropTrailing (c :: l) = c :: dropTrailing l := by
  simp only [dropTrailing, List.reverse_cons, List.dropWhile_append]
  by_cases h : (l.reverse.dropWhile isPySpace).isEmpty
  · simp [h, List.dropWhile_cons, hc, List.isEmpty_iff.mp h]
  · simp [h]

theorem dropTrailing_cons_of_ne_nil (c : Char) (l : List Char)
    (h : dropTrailing l ≠ []) : dropTrailing (c :: l) = c :: dropTrailing l := by
  have h' : (l.reverse.dropWhile isPySpace).isEmpty = false := by
    rcases he : l.reverse.dropWhile isPySpace with _ | ⟨d, rest⟩
    · exact absurd (by simp [dropTrailing, he]) h
    · rfl
  simp only [dropTrailing, List.reverse_cons, List.dropWhile_append, h']
  simp

theorem dropTrailing_append_of_ne_nil (P M : List Char) (h : dropTrailing M ≠ []) :
    dropTrailing (P ++ M) = P ++ dropTrailing M := by
  induction P with
  | nil => simp
  | cons c P' ih =>
    have hne : dropTrailing (P' ++ M) ≠ [] := by
      rw [ih]
      simp [h]
    rw [List.cons_append, dropTrailing_cons_of_ne_nil c _ hne, ih]
    rfl

theorem dropTrailing_idem (l : List Char) : dropTrailing (dropTrailing l) = dropTrailing l := by
  simp only [dropTrailing, List.reverse_reverse]
  congr 1
  induction l.reverse with
  | nil => rfl
  | cons c rest ih =>
    by_cases h : isPySpace c = true
    · simp [List.dropWhile_cons, h, ih]
    · simp [List.dropWhile_cons, h]

/-! ### Claim C8: ground-truth two-letter shape and canonical order -/

theorem gtExplicit_two_letters (L1 L2 : Char) (rest : List Char)
    (h1 : isUpperAlpha L1 = true) (h2 : isUpperAlpha L2 = true) :
    gtExplicit (L1 :: ',' :: ' ' :: L2 :: '.' :: rest) = some [L1, ',', ' ', L2] := by
  simp only [gtExplicit, h1, if_true]
  have hsp : spaceRun (' ' :: L2 :: '.' :: rest) = 1 := by
    have hs1 : isPySpace ' ' = true := by decide
    simp [spaceRun, hs1, upper_not_space L2 h2]
  simp [gtExplicitIters, hsp, h2, List.length_cons]

theorem insertSorted_two (L1 L2 : Char) :
    insertSorted L1 [L2] =
      if L1 < L2 then [L1, L2] else if L1 = L2 then [L2] else [L2, L1] := by
  simp [insertSorted]

/-- C8.  For a ground truth of the shape letter-comma-space-letter-period-text,
parse returns exactly the two letters, deduplicated and lexicographically
sorted; and on every input the returned token list is strictly sorted under
the string order and duplicate-free. -/
theorem ground_truth_sorted_tokens :
    (∀ (L1 L2 : Char) (text : List Char),
      isUpperAlpha L1 = true → isUpperAlpha L2 = true →
      parse_ground_truth (L1 :: ',' :: ' ' :: L2 :: '.' :: ' ' :: text) =
        if L1 < L2 then [[L1], [L2]] else if L1 = L2 then [[L1]] else [[L2], [L1]]) ∧
    (∀ s : List Char, (parse_ground_truth s).Pairwise (fun a b => strLt a b = true) ∧
      (parse_ground_truth s).Nodup) := by
  constructor
  · intro L1 L2 text hu1 hu2
    have hstrip : pyStrip (L1 :: ',' :: ' ' :: L2 :: '.' :: ' ' :: text) =
        L1 :: ',' :: ' ' :: L2 :: '.' :: dropTrailing (' ' :: text) := by
      rw [pyStrip_cons_of_nonspace L1 _ (upper_not_space L1 hu1)]
      have hM : dropTrailing ('.' :: ' ' :: text) =
          '.' :: dropTrailing (' ' :: text) :=
        dropTrailing_cons_of_nonspace '.' _ (by decide)
      have := dropTrailing_append_of_ne_nil [L1, ',', ' ', L2] ('.' :: ' ' :: text)
        (by rw [hM]; simp)
      simpa [hM] using this
    have hfil : ([L1, ',', ' ', L2].filter isUpperAlpha) = [L1, L2] := by
      have hc1 : isUpperAlpha ',' = false := by decide
      have hc2 : isUpperAlpha ' ' = false := by decide
      simp [List.filter, hu1, hu2, hc1, hc2]
    have hss : sortedSet [L1, L2] =
        if L1 < L2 then [L1, L2] else if L1 = L2 then [L2] else [L2, L1] := by
      have h0 : sortedSet [L1, L2] = insertSorted L1 [L2] := rfl
      rw [h0, insertSorted_two]
    simp only [parse_ground_truth, hstrip, gtExplicit_two_letters L1 L2 _ hu1 hu2,
      hfil, hss]
    by_cases hlt : L1 < L2
    · simp [hlt]
    · by_cases heq : L1 = L2
      · subst heq
        simp [hlt]
      · simp [hlt, heq]
  · intro s
    have hsingle : ∀ x : List Char, ([x] : List (List Char)).Pairwise
        (fun a b => strLt a b = true) := by
      intro x
      simp
    have hsorted : ∀ letters : List Char,
        ((sortedSet letters).map (fun c => ([c] : List Char))).Pairwise
          (fun a b => strLt a b = true) := by
      intro letters
      rw [List.pairwise_map]
      refine (pairwise_sortedSet letters).imp ?_
      intro a b hab
      simp [strLt, hab]
    have hsep : ∀ gt : List Char, (gtAfterSeparated gt).Pairwise
        (fun a b => strLt a b = true) := by
      intro gt
      simp only [gtAfterSeparated]
      split
      · exact hsingle _
      · exact hsorted _
    have hsingle2 : ∀ gt : List Char, (gtAfterSingle gt).Pairwise
        (fun a b => strLt a b = true) := by
      intro gt
      simp only [gtAfterSingle]
      split
      · split
        · exact hsep _
        · exact hsorted _
      · exact hsep _
    have hexp : ∀ gt : List Char, (gtAfterExplicit gt).Pairwise
        (fun a b => strLt a b = true) := by
      intro gt
      simp only [gtAfterExplicit]
      split
      · exact hsingle _
      · exact hsingle2 _
    have hmain : (parse_ground_truth s).Pairwise (fun a b => strLt a b = true) := by
      simp only [parse_ground_truth]
      split
      · split
        · exact hexp _
        · exact hsorted _
      · exact hexp _
    refine ⟨hmain, ?_⟩
    refine List.Pairwise.imp ?_ hmain
    intro a b hab he
    subst he
    rw [strLt_irrefl] at hab
    exact Bool.false_ne_true hab

theorem ground_truth_sorted_tokens_witness :
    parse_ground_truth ('D' :: ',' :: ' ' :: 'B' :: '.' :: ' ' :: "x".toList) =
      (if ('D' : Char) < 'B' then [['D'], ['B']]
       else if ('D' : Char) = 'B' then [['D']] else [['B'], ['D']]) :=
  ground_truth_sorted_tokens.1 'D' 'B' ("x".toList) (by decide) (by decide)

/-! ### Claim C9: total parsing and the worst-case fallback -/

/-- C9 counterexample.  On an input with surrounding whitespace and no
extractable answer, the parser returns the stripped text, not the raw reply
text unchanged as the claim states. -/
theorem parse_fallback_counterexample :
    parse_answer_with_reason (" 123 ".toList) = ("123".toList, []) ∧
    parse_answer_with_reason (" 123 ".toList) ≠ (" 123 ".toList, []) := by
  constructor
  · rfl
  · decide

/-- C9 amended.  The parser is a total function; whenever the labelled-answer
search and the isolated-letter extraction both fail, it returns the reply text
stripped of leading and trailing whitespace as the answer, with an empty
reason. -/
theorem parse_total_fallback (s : List Char)
    (h1 : findAnswerGroup (pyStrip s) = none)
    (h2 : (findLetterTokens (pyStrip s).length none (pyStrip s)).isEmpty = true) :
    parse_answer_with_reason s = (pyStrip s, []) := by
  simp only [parse_answer_with_reason, h1, h2]
  simp

theorem parse_total_fallback_witness :
    parse_answer_with_reason (" 123 ".toList) = (pyStrip (" 123 ".toList), []) :=
  parse_total_fallback (" 123 ".toList) (by decide) (by decide)

/-! ### Claim C7: well-formed answer-reason blocks -/

theorem abc_inClass (c : Char) (h : answerBodyChar c) : inAnswerClass c = true := by
  rcases h with h | h | h | h
  · simp [inAnswerClass, h]
  · subst h; decide
  · subst h; decide
  · subst h; decide

theorem abc_ne_newline (c : Char) (h : answerBodyChar c) : (c = '\n') = False := by
  simp only [eq_iff_iff, iff_false]
  rcases h with h | h | h | h
  · have h1 : 65 ≤ c.toNat ∧ c.toNat ≤ 90 := by simpa [isUpperAlpha] using h
    intro he
    subst he
    have h2 : ('\n' : Char).toNat = 10 := by decide
    omega
  · subst h; decide
  · subst h; decide
  · subst h; decide

theorem abc_not_ciEq_colon (c : Char) (h : answerBodyChar c) : ciEq ':' c = false := by
  rcases h with h | h | h | h
  · have h1 : 65 ≤ c.toNat ∧ c.toNat ≤ 90 := by simpa [isUpperAlpha] using h
    have hne : (':' : Char) ≠ c := by
      intro he
      rw [← he] at h1
      simp at h1
    have hup : isUpperAlpha ':' = false := by decide
    simp [ciEq, hne, hup, h]
    omega
  · subst h; decide
  · subst h; decide
  · subst h; decide

/-- No case-insensitive occurrence of a letters-then-colon label can start
inside a run of answer-body characters followed by a newline: the colon of
the pattern can match neither a body character nor the newline, and the
newline matches no letter of the label. -/
theorem nci : ∀ (X2 q R : List Char), (∀ a ∈ q, ciEq a '\n' = false) →
    (∀ c ∈ X2, answerBodyChar c) →
    startsWithCI (q ++ [':']) (X2 ++ '\n' :: R) = false := by
  intro X2
  induction X2 with
  | nil =>
    intro q R hq _
    cases q with
    | nil =>
      have : ciEq ':' '\n' = false := by decide
      simp [startsWithCI, this]
    | cons a q' =>
      have := hq a (by simp)
      simp [startsWithCI, this]
  | cons c X3 ih =>
    intro q R hq hX
    have hc := hX c (by simp)
    cases q with
    | nil =>
      have := abc_not_ciEq_colon c hc
      simp [startsWithCI, this]
    | cons a q' =>
      have h2 := ih q' R (fun b hb => hq b (by simp [hb])) (fun d hd => hX d (by simp [hd]))
      cases hac : ciEq a c
      · simp [startsWithCI, hac]
      · simp [startsWithCI, hac, h2]

theorem reason_label_split : ("reason:".toList) = ("reason".toList ++ [':']) := rfl

theorem answerTerm_newline (R : List Char) : answerTerm ('\n' :: R) = true := by
  simp [answerTerm]

theorem answerTerm_body (c : Char) (X3 R : List Char) (hc : answerBodyChar c)
    (hX : ∀ d ∈ X3, answerBodyChar d) :
    answerTerm (c :: (X3 ++ '\n' :: R)) = false := by
  have h1 : (c = '\n') = False := abc_ne_newline c hc
  have h2 : startsWithCI ("reason:".toList) ((c :: X3) ++ '\n' :: R) = false := by
    rw [reason_label_split]
    refine nci (c :: X3) ("reason".toList) R (by decide) ?_
    intro d hd
    rcases List.mem_cons.mp hd with h | h
    · exact h ▸ hc
    · exact hX d h
  rw [List.cons_append] at h2
  simp only [answerTerm, List.head?_cons, h2, List.isEmpty_cons]
  simp [h1]

theorem answerGroupAux_body (R : List Char) : ∀ (X2 acc : List Char),
    (∀ c ∈ X2, answerBodyChar c) →
    answerGroupAux acc (X2 ++ '\n' :: R) = some (acc.reverse ++ X2) := by
  intro X2
  induction X2 with
  | nil =>
    intro acc _
    simp [answerGroupAux, answerTerm_newline]
  | cons c X3 ih =>
    intro acc hX
    have hc := hX c (by simp)
    have hX3 : ∀ d ∈ X3, answerBodyChar d := fun d hd => hX d (by simp [hd])
    rw [List.cons_append, answerGroupAux, answerTerm_body c X3 R hc hX3]
    simp only [Bool.false_eq_true, if_false, abc_inClass c hc, if_true]
    rw [ih (c :: acc) hX3]
    simp

theorem answerGroupFrom_body (x : Char) (X' R : List Char)
    (hx : answerBodyChar x) (hX : ∀ c ∈ X', answerBodyChar c) :
    answerGroupFrom ((x :: X') ++ '\n' :: R) = some (x :: X') := by
  rw [List.cons_append, answerGroupFrom, abc_inClass x hx]
  simp only [if_true]
  rw [answerGroupAux_body R X' [x] hX]
  simp

theorem answerAtLabel_body (x : Char) (X' R : List Char)
    (hx : answerBodyChar x) (hxs : isPySpace x = false)
    (hX : ∀ c ∈ X', answerBodyChar c) :
    answerAtLabel (' ' :: ((x :: X') ++ '\n' :: R)) = some (x :: X') := by
  have hsp : spaceRun (' ' :: ((x :: X') ++ '\n' :: R)) = 1 := by
    have h1 : isPySpace ' ' = true := by decide
    simp [spaceRun, h1, hxs]
  rw [answerAtLabel, hsp]
  have hdrop : ((' ' :: ((x :: X') ++ '\n' :: R)).drop 1) = (x :: X') ++ '\n' :: R := rfl
  rw [show (1 : Nat) = 0 + 1 from rfl, answerTryDrop, hdrop,
    answerGroupFrom_body x X' R hx hX]

theorem findAnswerGroup_block (x : Char) (X' R : List Char)
    (hx : answerBodyChar x) (hxs : isPySpace x = false)
    (hX : ∀ c ∈ X', answerBodyChar c) :
    findAnswerGroup ('A' :: 'n' :: 's' :: 'w' :: 'e' :: 'r' :: ':' :: ' ' ::
        ((x :: X') ++ '\n' :: R)) = some (x :: X') := by
  have hsw : startsWithCI ("answer:".toList)
      ('A' :: 'n' :: 's' :: 'w' :: 'e' :: 'r' :: ':' :: ' ' ::
        ((x :: X') ++ '\n' :: R)) = true := rfl
  rw [findAnswerGroup, hsw]
  simp only [if_true]
  have hdrop : (('A' :: 'n' :: 's' :: 'w' :: 'e' :: 'r' :: ':' :: ' ' ::
      ((x :: X') ++ '\n' :: R)).drop 7) = ' ' :: ((x :: X') ++ '\n' :: R) := rfl
  rw [hdrop, answerAtLabel_body x X' R hx hxs hX]

theorem hasDoubleNewline_tail (c : Char) (l : List Char)
    (h : hasDoubleNewline (c :: l) = false) : hasDoubleNewline l = false := by
  cases l with
  | nil => rfl
  | cons d rest =>
    rw [hasDoubleNewline] at h
    exact (Bool.or_eq_false_iff.mp h).2

theorem hasDoubleNewline_mono (p t : List Char) (h : hasDoubleNewline p = true) :
    hasDoubleNewline (p ++ t) = true := by
  induction p with
  | nil => exact absurd h (by simp [hasDoubleNewline])
  | cons c rest ih =>
    cases rest with
    | nil => exact absurd h (by simp [hasDoubleNewline])
    | cons d rest' =>
      rw [hasDoubleNewline] at h
      rcases Bool.or_eq_true_iff.mp h with h1 | h1
      · simp [hasDoubleNewline, h1]
      · simp only [List.cons_append, hasDoubleNewline]
        refine Bool.or_eq_true_iff.mpr (Or.inr ?_)
        simpa using ih h1

theorem hasDoubleNewline_of_prefix (p l : List Char) (hp : List.IsPrefix p l)
    (h : hasDoubleNewline l = false) : hasDoubleNewline p = false := by
  obtain ⟨t, rfl⟩ := hp
  cases hb : hasDoubleNewline p with
  | false => rfl
  | true => exact absurd (hasDoubleNewline_mono p t hb) (by simp [h])

theorem dropTrailing_isPre (l : List Char) : List.IsPrefix (dropTrailing l) l := by
  have h := (List.dropWhile_suffix (l := l.reverse) isPySpace).reverse
  rw [List.reverse_reverse] at h
  exact h

theorem reasonGroupAux_all (Y2 : List Char) : ∀ acc : List Char,
    hasDoubleNewline Y2 = false →
    reasonGroupAux acc Y2 = acc.reverse ++ Y2 := by
  induction Y2 with
  | nil =>
    intro acc _
    simp [reasonGroupAux]
  | cons c Y3 ih =>
    intro acc h
    have hlit : startsWithLit ['\n', '\n'] (c :: Y3) = false := by
      cases Y3 with
      | nil => simp [startsWithLit]
      | cons d Y4 =>
        rw [hasDoubleNewline] at h
        have h1 := (Bool.or_eq_false_iff.mp h).1
        rcases Bool.and_eq_false_iff.mp h1 with h2 | h2
        · have h3 : ('\n' : Char) ≠ c := by
            intro he
            subst he
            simp at h2
          simp [startsWithLit, h3]
        · have h3 : ('\n' : Char) ≠ d := by
            intro he
            subst he
            simp at h2
          simp [startsWithLit, h3]
    rw [reasonGroupAux, hlit]
    simp only [Bool.false_eq_true, if_false]
    rw [ih (c :: acc) (hasDoubleNewline_tail c Y3 h)]
    simp

theorem reasonGroupFrom_all (y : Char) (Y2 : List Char)
    (h : hasDoubleNewline (y :: Y2) = false) :
    reasonGroupFrom (y :: Y2) = some (y :: Y2) := by
  rw [reasonGroupFrom, reasonGroupAux_all Y2 [y] (hasDoubleNewline_tail y Y2 h)]
  simp

theorem reasonAtLabel_clean (y : Char) (Y2 : List Char) (hy : isPySpace y = false)
    (h : hasDoubleNewline (y :: Y2) = false) :
    reasonAtLabel (' ' :: y :: Y2) = some (y :: Y2) := by
  have hsp : spaceRun (' ' :: y :: Y2) = 1 := by
    have h1 : isPySpace ' ' = true := by decide
    simp [spaceRun, h1, hy]
  rw [reasonAtLabel, hsp]
  have hdrop : ((' ' :: y :: Y2).drop 1) = y :: Y2 := rfl
  rw [show (1 : Nat) = 0 + 1 from rfl, reasonTryDrop, hdrop, reasonGroupFrom_all y Y2 h]

theorem findReasonGroup_skip_body : ∀ (X2 R : List Char),
    (∀ c ∈ X2, answerBodyChar c) →
    findReasonGroup (X2 ++ '\n' :: R) = findReasonGroup ('\n' :: R) := by
  intro X2
  induction X2 with
  | nil => intro R _; rfl
  | cons c X3 ih =>
    intro R hX
    have hc := hX c (by simp)
    have hX3 : ∀ d ∈ X3, answerBodyChar d := fun d hd => hX d (by simp [hd])
    have hsw : startsWithCI ("reason:".toList) ((c :: X3) ++ '\n' :: R) = false := by
      rw [reason_label_split]
      refine nci (c :: X3) ("reason".toList) R (by decide) ?_
      intro d hd
      rcases List.mem_cons.mp hd with h | h
      · exact h ▸ hc
      · exact hX3 d h
    rw [List.cons_append] at hsw ⊢
    rw [findReasonGroup, hsw]
    simp only [Bool.false_eq_true, if_false]
    exact ih R hX3

theorem findReasonGroup_at_label (y : Char) (Y2 : List Char)
    (hy : isPySpace y = false) (h : hasDoubleNewline (y :: Y2) = false) :
    findReasonGroup ('\n' :: 'R' :: 'e' :: 'a' :: 's' :: 'o' :: 'n' :: ':' :: ' ' ::
        y :: Y2) = some (y :: Y2) := by
  have h1 : startsWithCI ("reason:".toList) ('\n' :: 'R' :: 'e' :: 'a' :: 's' :: 'o' ::
      'n' :: ':' :: ' ' :: y :: Y2) = false := rfl
  rw [findReasonGroup, h1]
  simp only [Bool.false_eq_true, if_false]
  have h2 : startsWithCI ("reason:".toList) ('R' :: 'e' :: 'a' :: 's' :: 'o' ::
      'n' :: ':' :: ' ' :: y :: Y2) = true := rfl
  rw [findReasonGroup, h2]
  simp only [if_true]
  have hdrop : (('R' :: 'e' :: 'a' :: 's' :: 'o' :: 'n' :: ':' :: ' ' :: y :: Y2).drop 7) =
      ' ' :: y :: Y2 := rfl
  rw [hdrop, reasonAtLabel_clean y Y2 hy h]

theorem space_not_kept (c : Char) (hc : isPySpace c = true) : keepAnswerChar c = false := by
  have h : ((((c = ' ' ∨ c = '\t') ∨ c = '\n') ∨ c = '\r') ∨ c = '\x0b') ∨ c = '\x0c' := by
    simpa [isPySpace] using hc
  rcases h with ((((h | h) | h) | h) | h) | h <;> subst h <;> decide

theorem filter_keep_dropWhile (l : List Char) :
    (l.dropWhile isPySpace).filter keepAnswerChar = l.filter keepAnswerChar := by
  induction l with
  | nil => rfl
  | cons c rest ih =>
    by_cases h : isPySpace c = true
    · simp [List.dropWhile_cons, h, ih, List.filter_cons, space_not_kept c h]
    · simp [List.dropWhile_cons, h]

theorem filter_keep_pyStrip (l : List Char) :
    (pyStrip l).filter keepAnswerChar = l.filter keepAnswerChar := by
  rw [pyStrip, List.filter_reverse, filter_keep_dropWhile, List.filter_reverse,
    List.reverse_reverse, filter_keep_dropWhile]

theorem upperChar_id_of_body (c : Char) (h : answerBodyChar c) : upperChar c = c := by
  rcases h with h | h | h | h
  · have h1 : 65 ≤ c.toNat ∧ c.toNat ≤ 90 := by simpa [isUpperAlpha] using h
    have hlow : isLowerAlpha c = false := by
      simp only [isLowerAlpha]
      simp only [Bool.and_eq_false_iff, decide_eq_false_iff_not, not_le]
      omega
    simp [upperChar, hlow]
  · subst h; decide
  · subst h; decide
  · subst h; decide

theorem mem_pyStrip (c : Char) (l : List Char) (h : c ∈ pyStrip l) : c ∈ l := by
  rw [pyStrip, List.mem_reverse] at h
  have h2 := (List.dropWhile_sublist isPySpace).subset h
  rw [List.mem_reverse] at h2
  exact (List.dropWhile_sublist isPySpace).subset h2

theorem map_upper_id (l : List Char) (h : ∀ c ∈ l, answerBodyChar c) :
    l.map upperChar = l := by
  induction l with
  | nil => rfl
  | cons c rest ih =>
    simp [upperChar_id_of_body c (h c (by simp)), ih (fun d hd => h d (by simp [hd]))]

/-- On an answer value built from answer-body characters, the source's
normalisation (strip, upper-case, filter) agrees with the spec's reading
(filter, then upper-case). -/
theorem normalize_eq_spec (X : List Char) (hX : ∀ c ∈ X, answerBodyChar c) :
    normalizeAnswer X = specNormalize X := by
  rw [normalizeAnswer, specNormalize,
    map_upper_id (pyStrip X) (fun c hc => hX c (mem_pyStrip c X hc)),
    filter_keep_pyStrip,
    map_upper_id (X.filter keepAnswerChar) (fun c hc => hX c (List.mem_of_mem_filter hc))]

theorem pyStrip_append_shape (c : Char) (rest M : List Char)
    (hc : isPySpace c = false) (hM : dropTrailing M ≠ []) :
    pyStrip ((c :: rest) ++ M) = (c :: rest) ++ dropTrailing M := by
  rw [List.cons_append, pyStrip_cons_of_nonspace c _ hc, ← List.cons_append,
    dropTrailing_append_of_ne_nil _ _ hM]

/-- C7.  A reply that is a well-formed answer-reason block, an answer value of
uppercase letters with optional comma, semicolon or space separators on one
line and a reason with no blank line after the label, parses to exactly the
answer value normalised as the spec describes (characters outside uppercase,
comma and semicolon removed, then upper-cased) and to exactly the reason text
trimmed. -/
theorem well_formed_block_parsed
    (x y : Char) (X' Y' : List Char)
    (hx : answerBodyChar x) (hxs : isPySpace x = false)
    (hX : ∀ c ∈ X', answerBodyChar c)
    (hy : isPySpace y = false)
    (hnn : hasDoubleNewline (y :: Y') = false) :
    parse_answer_with_reason
        ("Answer: ".toList ++ (x :: X') ++ '\n' :: ("Reason: ".toList ++ (y :: Y'))) =
      (specNormalize (x :: X'), pyStrip (y :: Y')) := by
  have hxX : ∀ c ∈ x :: X', answerBodyChar c := by
    intro c hc
    rcases List.mem_cons.mp hc with h | h
    · exact h ▸ hx
    · exact hX c h
  have hM : dropTrailing (y :: Y') = y :: dropTrailing Y' :=
    dropTrailing_cons_of_nonspace y Y' hy
  have hMne : dropTrailing (y :: Y') ≠ [] := by rw [hM]; simp
  have hassoc : "Answer: ".toList ++ (x :: X') ++
      '\n' :: ("Reason: ".toList ++ (y :: Y')) =
      ('A' :: ('n' :: 's' :: 'w' :: 'e' :: 'r' :: ':' :: ' ' :: ((x :: X') ++
        '\n' :: "Reason: ".toList))) ++ (y :: Y') := by
    simp
  have hstrip : pyStrip ("Answer: ".toList ++ (x :: X') ++
      '\n' :: ("Reason: ".toList ++ (y :: Y'))) =
      'A' :: 'n' :: 's' :: 'w' :: 'e' :: 'r' :: ':' :: ' ' ::
        ((x :: X') ++ '\n' :: ("Reason: ".toList ++ (y :: dropTrailing Y'))) := by
    rw [hassoc, pyStrip_append_shape 'A' _ _ (by decide) hMne, hM]
    simp
  have hans := findAnswerGroup_block x X' ("Reason: ".toList ++ (y :: dropTrailing Y'))
    hx hxs hX
  have hTnn : hasDoubleNewline (y :: dropTrailing Y') = false := by
    refine hasDoubleNewline_of_prefix _ _ ?_ hnn
    obtain ⟨t, ht⟩ := dropTrailing_isPre Y'
    exact ⟨t, by simp [ht]⟩
  have hreason : findReasonGroup ('A' :: 'n' :: 's' :: 'w' :: 'e' :: 'r' :: ':' :: ' ' ::
      ((x :: X') ++ '\n' :: ("Reason: ".toList ++ (y :: dropTrailing Y')))) =
      some (y :: dropTrailing Y') := by
    have h8 : findReasonGroup ('A' :: 'n' :: 's' :: 'w' :: 'e' :: 'r' :: ':' :: ' ' ::
        ((x :: X') ++ '\n' :: ("Reason: ".toList ++ (y :: dropTrailing Y')))) =
        findReasonGroup ((x :: X') ++
          '\n' :: ("Reason: ".toList ++ (y :: dropTrailing Y'))) := rfl
    rw [h8, findReasonGroup_skip_body (x :: X') _ hxX]
    exact findReasonGroup_at_label y (dropTrailing Y') hy hTnn
  have hback : pyStrip (y :: dropTrailing Y') = pyStrip (y :: Y') := by
    rw [pyStrip_cons_of_nonspace y _ hy, pyStrip_cons_of_nonspace y _ hy,
      dropTrailing_cons_of_nonspace y _ hy, dropTrailing_cons_of_nonspace y _ hy,
      dropTrailing_idem]
  simp only [parse_answer_with_reason, hstrip, hans, hreason]
  rw [normalize_eq_spec (x :: X') hxX, hback]

theorem well_formed_block_parsed_witness :
    parse_answer_with_reason
        ("Answer: ".toList ++ ('A' :: ", B".toList) ++ '\n' ::
          ("Reason: ".toList ++ ('b' :: "ecause.".toList))) =
      (specNormalize ('A' :: ", B".toList), pyStrip ('b' :: "ecause.".toList)) :=
  well_formed_block_parsed 'A' 'b' (", B".toList) ("ecause.".toList)
    (by decide) (by decide) (by decide) (by decide) (by decide)

end HeartBench
